import Mathlib

/-
  Verification development for the universal_table_engine repository.

  Shallow embedding of the core components named by the specification:
  the numeric coercer (utils/numbers.py), the date coercer (utils/dates.py),
  the PII scanner (utils/pii.py), the rule matcher (ingest/rules_loader.py),
  the normalizer's confidence/status computation (ingest/normalize.py and
  app.py), the intake authenticator (app.py) and the receipt store
  (webhook_store.py).

  Python strings are modelled as `List Char`; Python floats as exact
  rationals `ℚ` (the properties at stake are stated up to 1e-6, far above
  double rounding); Python exceptions as `Except`; the filesystem of the
  receipt store as association lists keyed by paths.  External collaborators
  (the dateutil free-text parser, the HMAC digest primitive, the tabular
  decoder) are taken as function parameters, never hard-coded.
-/

namespace UTE

/-! ### Shared character and string helpers (Python semantics) -/

/-- Characters removed by Python `str.strip()` on the inputs in scope:
ASCII whitespace plus the no-break space U+00A0 (which Python also strips). -/
def pyIsSpace (c : Char) : Bool :=
  c = ' ' || c = '\t' || c = '\n' || c = '\r' ||
  c = Char.ofNat 11 || c = Char.ofNat 12 || c = Char.ofNat 160

/-- Python `str.strip()`. -/
def pyStrip (l : List Char) : List Char :=
  ((l.dropWhile pyIsSpace).reverse.dropWhile pyIsSpace).reverse

/-- ASCII lower-casing, mirroring Python `str.lower()` on the ASCII tokens
used by the repository. -/
def lowerL (l : List Char) : List Char := l.map Char.toLower

/-- Python regex word character (`\w`) on the ASCII alphabet: letters,
digits, underscore. -/
def isWordChar (c : Char) : Bool := c.isAlphanum || c = '_'

/-- Predicate: `needle` is a prefix of `hay`. -/
def prefixL : List Char → List Char → Bool
  | [], _ => true
  | _ :: _, [] => false
  | n :: ns, h :: hs => n = h && prefixL ns hs

/-- Python `needle in hay`: contiguous substring containment. -/
def substrL (needle : List Char) : List Char → Bool
  | [] => needle.isEmpty
  | h :: t => prefixL needle (h :: t) || substrL needle t

/-- Numeric value of a digit list (most significant first); Python `int`
on an all-digit string. -/
def natOfDigits (l : List Char) : Nat :=
  l.foldl (fun acc c => acc * 10 + (c.toNat - '0'.toNat)) 0

/-! ### Numeric Coercer — utils/numbers.py -/

/-- The single-character currency symbols of `_CURRENCY_RE`. -/
def isCurrencySymbol (c : Char) : Bool :=
  c = '€' || c = '$' || c = '£' || c = '¥' || c = '₽' || c = '₴' || c = '₺' || c = '₦'

/-- The three-letter currency codes of `_CURRENCY_RE`, case-insensitive. -/
def isCurrencyCode (a b c : Char) : Bool :=
  let w := [a.toLower, b.toLower, c.toLower]
  w = ['l', 'e', 'i'] || w = ['r', 'o', 'n'] || w = ['u', 's', 'd'] ||
  w = ['e', 'u', 'r'] || w = ['g', 'b', 'p']

/-- Boundary `\b` before a currency code: previous original character (if any) is not
a word character. -/
def codeBoundaryOk : Option Char → Bool
  | none => true
  | some p => !isWordChar p

/-- Boundary `\b` after a currency code: next original character (if any) is not a
word character. -/
def tailBoundaryOk (l : List Char) : Bool :=
  match l.head? with
  | none => true
  | some x => !isWordChar x

/-- Embedding of `_CURRENCY_RE.sub("", ·)`: left-to-right scan removing single currency
symbols and word-bounded three-letter currency codes.  The first argument
tracks the previous character of the *original* string, as Python lookaround
semantics require. -/
def currencyAux : Option Char → List Char → List Char
  | _, [] => []
  | prev, c :: b :: d :: rest2 =>
    if isCurrencySymbol c then currencyAux (some c) (b :: d :: rest2)
    else if codeBoundaryOk prev && isCurrencyCode c b d && tailBoundaryOk rest2 then
      currencyAux (some d) rest2
    else c :: currencyAux (some c) (b :: d :: rest2)
  | _, c :: rest =>
    if isCurrencySymbol c then currencyAux (some c) rest
    else c :: currencyAux (some c) rest

/-- Separator characters of `_THOUSANDS_RE`'s class: regex whitespace,
apostrophe (U+0027), backtick (U+0060), middle dot, underscore. -/
def isThousandsSep (c : Char) : Bool :=
  c = ' ' || c = '\t' || c = '\n' || c = '\r' ||
  c = Char.ofNat 11 || c = Char.ofNat 12 ||
  c = Char.ofNat 39 || c = Char.ofNat 96 || c = '·' || c = '_'

/-- Embedding of `_THOUSANDS_RE.sub("", ·)`: drop a separator exactly when the previous
and next characters of the original string are digits (the regex lookarounds
inspect the original string). -/
def thousandsAux : Option Char → List Char → List Char
  | _, [] => []
  | prev, c :: rest =>
    if isThousandsSep c
        && (match prev with | some p => p.isDigit | none => false)
        && (match rest.head? with | some n => n.isDigit | none => false) then
      thousandsAux (some c) rest
    else c :: thousandsAux (some c) rest

/-- Embedding of `normalize_numeric_string`: strip, no-break space → space, currency
symbols/codes removed, `%` removed, thousands separators between digits
removed, remaining spaces removed. -/
def normalize_numeric_string (l : List Char) : List Char :=
  let cleaned := pyStrip l
  let cleaned := cleaned.map (fun c => if c = Char.ofNat 160 then ' ' else c)
  let cleaned := currencyAux none cleaned
  let cleaned := cleaned.filter (fun c => c ≠ '%')
  let cleaned := thousandsAux none cleaned
  cleaned.filter (fun c => c ≠ ' ')

/-- Python `str.rfind` on a single character: index of the last occurrence,
`-1` when absent. -/
def rfind : List Char → Char → Int
  | [], _ => -1
  | c :: rest, x =>
    let r := rfind rest x
    if 0 ≤ r then r + 1 else if c = x then 0 else -1

/-- The decimal-separator choice of `parse_number`: when both `,` and `.`
occur, the one with the greater `rfind` index; when only `,` occurs, `,`;
otherwise `.`. -/
def decimal_char (l : List Char) : Char :=
  if l.count ',' ≠ 0 ∧ l.count '.' ≠ 0 then
    if rfind l ',' > rfind l '.' then ',' else '.'
  else if l.count ',' ≠ 0 then ','
  else '.'

/-- Python `float()` restricted to the residual alphabet `[0-9.+-]` that
survives `_NON_NUMERIC_RE`: optional sign, then digits with at most one
dot and at least one digit; anything else raises, i.e. yields `none`.
The value is represented exactly as a scaled integer `(m, k)` denoting
`m / 10 ^ k` (decimal literals are exact rationals; the 1e-6 tolerance of
the specification is far above double rounding). -/
def pyFloatRep (l : List Char) : Option (Int × Nat) :=
  let (sign, rest) :=
    match l with
    | '+' :: r => ((1 : Int), r)
    | '-' :: r => ((-1 : Int), r)
    | r => ((1 : Int), r)
  let intPart := rest.takeWhile Char.isDigit
  match rest.dropWhile Char.isDigit with
  | [] => if intPart.isEmpty then none else some (sign * natOfDigits intPart, 0)
  | '.' :: frac =>
    if frac.all Char.isDigit ∧ ¬(intPart.isEmpty ∧ frac.isEmpty) then
      some (sign * ((natOfDigits intPart : Int) * 10 ^ frac.length + natOfDigits frac), frac.length)
    else none
  | _ => none

/-- Rational value denoted by a scaled-integer float representation. -/
def repVal (p : Int × Nat) : ℚ := (p.1 : ℚ) / 10 ^ p.2

/-- Embedding of `parse_number` from utils/numbers.py, on the scaled-integer
representation: strip; empty → none; record a trailing `%`; normalize;
infer the decimal separator; unify on `.`; drop residual non-numeric
characters; reject degenerate residues; `float()`; divide by 100 when a
percent sign was present. -/
def parse_numberRep (l : List Char) : Option (Int × Nat) :=
  let text := pyStrip l
  if text.isEmpty then none
  else
    let pct := text.getLast? = some '%'
    let normalized := normalize_numeric_string text
    if normalized.isEmpty then none
    else
      let dec := decimal_char normalized
      let unified :=
        if dec = ',' then
          (normalized.filter (fun c => c ≠ '.')).map (fun c => if c = ',' then '.' else c)
        else normalized.filter (fun c => c ≠ ',')
      let residue := unified.filter (fun c => c.isDigit || c = '.' || c = ',' || c = '+' || c = '-')
      if residue = [] ∨ residue = ['.'] ∨ residue = ['+'] ∨ residue = ['-'] ∨ residue = ['-', '.'] then
        none
      else
        match pyFloatRep residue with
        | none => none
        | some (m, k) => some (if pct then (m, k + 2) else (m, k))

/-- Embedding of `parse_number`: the rational value returned by the numeric coercer. -/
def parse_number (l : List Char) : Option ℚ :=
  (parse_numberRep l).map repVal

/-- Specification-side reading of the separator rule: the decimal separator
is the separator (`,` or `.`) occurring last in the string, defaulting to
`.` when neither occurs. -/
def lastSep : List Char → Option Char
  | [] => none
  | c :: rest =>
    match lastSep rest with
    | some d => some d
    | none => if c = ',' ∨ c = '.' then some c else none

/-- Spec-side decimal separator: the later-occurring of `,` and `.`;
`,` when it is the only separator; `.` otherwise. -/
def specDecimal (l : List Char) : Char := (lastSep l).getD '.'


/-! #### The separator-inference rule -/

lemma rfind_cons (x : Char) (rest : List Char) (c : Char) :
    rfind (x :: rest) c =
      if 0 ≤ rfind rest c then rfind rest c + 1 else if x = c then 0 else -1 := rfl

lemma neg_one_le_rfind (l : List Char) (c : Char) : -1 ≤ rfind l c := by
  induction l with
  | nil => simp [rfind]
  | cons x rest ih =>
    rw [rfind_cons]
    split
    · omega
    · split <;> omega

lemma rfind_nonneg_iff_mem (l : List Char) (c : Char) : 0 ≤ rfind l c ↔ c ∈ l := by
  induction l with
  | nil => simp [rfind]
  | cons x rest ih =>
    rw [rfind_cons]
    by_cases h : 0 ≤ rfind rest c
    · rw [if_pos h]
      constructor
      · intro _
        exact List.mem_cons_of_mem x (ih.mp h)
      · intro _
        omega
    · rw [if_neg h]
      by_cases hx : x = c
      · subst hx
        simp
      · rw [if_neg hx]
        constructor
        · intro h0
          exact absurd h0 (by norm_num)
        · intro hm
          rcases List.mem_cons.mp hm with rfl | hm2
          · exact absurd rfl hx
          · exact absurd (ih.mpr hm2) h

lemma count_ne_zero_iff_rfind (l : List Char) (c : Char) :
    l.count c ≠ 0 ↔ 0 ≤ rfind l c := by
  rw [Ne, List.count_eq_zero, not_not]
  exact (rfind_nonneg_iff_mem l c).symm

lemma lastSep_cons (x : Char) (rest : List Char) :
    lastSep (x :: rest) =
      match lastSep rest with
      | some d => some d
      | none => if x = ',' ∨ x = '.' then some x else none := rfl

lemma lastSep_trichotomy (l : List Char) :
    (lastSep l = none ∧ rfind l ',' = -1 ∧ rfind l '.' = -1)
    ∨ (lastSep l = some ',' ∧ 0 ≤ rfind l ',' ∧ rfind l '.' < rfind l ',')
    ∨ (lastSep l = some '.' ∧ 0 ≤ rfind l '.' ∧ rfind l ',' < rfind l '.') := by
  induction l with
  | nil => exact Or.inl ⟨rfl, rfl, rfl⟩
  | cons c rest ih =>
    rcases ih with ⟨h1, h2, h3⟩ | ⟨h1, h2, h3⟩ | ⟨h1, h2, h3⟩
    · -- no separator in rest
      by_cases hc : c = ','
      · subst hc
        refine Or.inr (Or.inl ⟨?_, ?_, ?_⟩)
        · rw [lastSep_cons, h1]
          simp
        · rw [rfind_cons, h2]
          norm_num
        · rw [rfind_cons, rfind_cons, h2, h3]
          norm_num
          decide
      · by_cases hd : c = '.'
        · subst hd
          refine Or.inr (Or.inr ⟨?_, ?_, ?_⟩)
          · rw [lastSep_cons, h1]
            simp
          · rw [rfind_cons, h3]
            norm_num
          · rw [rfind_cons, rfind_cons, h2, h3]
            norm_num
            decide
        · refine Or.inl ⟨?_, ?_, ?_⟩
          · rw [lastSep_cons, h1]
            simp [hc, hd]
          · rw [rfind_cons, h2]
            norm_num
            exact hc
          · rw [rfind_cons, h3]
            norm_num
            exact hd
    · -- last separator of rest is a comma
      refine Or.inr (Or.inl ⟨?_, ?_, ?_⟩)
      · rw [lastSep_cons, h1]
      · rw [rfind_cons]
        rw [if_pos h2]
        omega
      · rw [rfind_cons, rfind_cons, if_pos h2]
        rcases le_or_lt 0 (rfind rest '.') with hge | hlt
        · rw [if_pos hge]
          omega
        · rw [if_neg (by omega)]
          split <;> omega
    · -- last separator of rest is a dot
      refine Or.inr (Or.inr ⟨?_, ?_, ?_⟩)
      · rw [lastSep_cons, h1]
      · rw [rfind_cons]
        rw [if_pos h2]
        omega
      · rw [rfind_cons, rfind_cons, if_pos h2]
        rcases le_or_lt 0 (rfind rest ',') with hge | hlt
        · rw [if_pos hge]
          omega
        · rw [if_neg (by omega)]
          split <;> omega

/-- The decimal-separator choice computed by `parse_number` coincides, on
every string, with the specification's rule: the later-occurring of `,`
and `.` is the decimal separator, `,` when it is the only one present,
`.` otherwise. -/
lemma decimal_char_eq_specDecimal (l : List Char) : decimal_char l = specDecimal l := by
  rcases lastSep_trichotomy l with ⟨h1, h2, h3⟩ | ⟨h1, h2, h3⟩ | ⟨h1, h2, h3⟩
  · have hc : ¬ l.count ',' ≠ 0 := by
      rw [count_ne_zero_iff_rfind]
      omega
    simp [decimal_char, specDecimal, h1, hc]
  · have hc : l.count ',' ≠ 0 := (count_ne_zero_iff_rfind l ',').mpr h2
    by_cases hd : l.count '.' ≠ 0
    · have hgt : rfind l ',' > rfind l '.' := h3
      simp [decimal_char, specDecimal, h1, hc, hd, hgt]
    · simp [decimal_char, specDecimal, h1, hc, hd]
  · have hd : l.count '.' ≠ 0 := (count_ne_zero_iff_rfind l '.').mpr h2
    by_cases hc : l.count ',' ≠ 0
    · have hngt : ¬ rfind l ',' > rfind l '.' := by omega
      simp [decimal_char, specDecimal, h1, hc, hd, hngt]
    · simp [decimal_char, specDecimal, h1, hc, hd]

/-- C2: For every token, the numeric coercer infers the decimal separator
as specified — when both `,` and `.` occur, the one occurring later in the
string is the decimal separator (the other being stripped as a thousands
separator); when only `,` occurs it is the decimal separator; otherwise
`.` is — and `"1.234,56 lei"` parses to 1234.56, `"12,345.67"` to
12345.67, `"10%"` to 0.10, and the empty string to not-a-number. -/
theorem parse_number_decimal_inference_and_examples :
    (∀ l : List Char, decimal_char l = specDecimal l)
    ∧ parse_number "1.234,56 lei".toList = some ((123456 : ℚ) / 100)
    ∧ parse_number "12,345.67".toList = some ((1234567 : ℚ) / 100)
    ∧ parse_number "10%".toList = some ((1 : ℚ) / 10)
    ∧ parse_number "".toList = none := by
  refine ⟨decimal_char_eq_specDecimal, ?_, ?_, ?_, ?_⟩
  · have h : parse_numberRep "1.234,56 lei".toList = some (123456, 2) := by decide
    simp only [parse_number, h, Option.map_some', repVal]
    norm_num
  · have h : parse_numberRep "12,345.67".toList = some (1234567, 2) := by decide
    simp only [parse_number, h, Option.map_some', repVal]
    norm_num
  · have h : parse_numberRep "10%".toList = some (10, 2) := by decide
    simp only [parse_number, h, Option.map_some', repVal]
    norm_num
  · have h : parse_numberRep "".toList = none := by decide
    simp only [parse_number, h, Option.map_none']

/-! ### Date Coercer — utils/dates.py -/

/-- A calendar date (the time component of the digits-only path is always
midnight and is omitted). -/
structure PyDate where
  year : Nat
  month : Nat
  day : Nat
deriving DecidableEq, Repr

/-- Leap-year rule of the proleptic Gregorian calendar used by Python's
`datetime`. -/
def isLeapYear (y : Nat) : Bool :=
  y % 4 = 0 && (y % 100 ≠ 0 || y % 400 = 0)

/-- Days in a month, per Python's `datetime`. -/
def daysInMonth (y m : Nat) : Nat :=
  if m = 2 then (if isLeapYear y then 29 else 28)
  else if m = 4 ∨ m = 6 ∨ m = 9 ∨ m = 11 then 30
  else 31

/-- Embedding of `datetime.fromisoformat` on a `YYYY-MM-DDT00:00:00` literal built from
the numbers `(y, m, d)`: returns the date, or raises `ValueError` when the
components are out of range. -/
def fromisoformat (y m d : Nat) : Except String PyDate :=
  if 1 ≤ y ∧ y ≤ 9999 ∧ 1 ≤ m ∧ m ≤ 12 ∧ 1 ≤ d ∧ d ≤ daysInMonth y m then
    Except.ok ⟨y, m, d⟩
  else Except.error "ValueError"

/-- Embedding of `_digits_only_to_iso`: collect the digits of the value; empty → none;
left-pad a 7-digit run to 8; reject any other length; split into
day/month/year (or month/day/year when `dayfirst` is false).  The
`int(...)` conversions of the source never fail on digit strings, so the
result here is the numeric triple `(year, month, day)` fed to the ISO
literal. -/
def digits_only_to_iso (l : List Char) (dayfirst : Bool) : Option (Nat × Nat × Nat) :=
  let digits := l.filter Char.isDigit
  if digits.isEmpty then none
  else
    let digits := if digits.length = 7 then '0' :: digits else digits
    if digits.length ≠ 8 then none
    else
      let a := natOfDigits (digits.take 2)
      let b := natOfDigits ((digits.drop 2).take 2)
      let y := natOfDigits (digits.drop 4)
      if dayfirst then some (y, b, a) else some (y, a, b)

/-- Embedding of `parse_date` from utils/dates.py.  The free-text fallback
(`dateutil.parser.parse` wrapped in `try/except`) is an external
collaborator, passed in as the total function `ext` (it returns a date or,
when its exceptions are caught, nothing).  The digits-only path calls
`datetime.fromisoformat` *outside* any `try` block, so its `ValueError`
propagates — modelled as `Except.error`. -/
def parse_date (ext : List Char → Option PyDate) (dayfirst : Bool)
    (value : List Char) : Except String (Option PyDate) :=
  let text := pyStrip value
  if text.isEmpty then Except.ok none
  else
    match digits_only_to_iso text dayfirst with
    | some (y, m, d) =>
      match fromisoformat y m d with
      | Except.ok date => Except.ok (some date)
      | Except.error e => Except.error e
    | none => Except.ok (ext text)

/-- C6 (code bug): the single-value date parse is *not* total.  On the
8-digit input `"31132024"` (day 31, month 13 under the day-first layout)
the digit-only fallback builds the literal `2024-13-31T00:00:00` and
`datetime.fromisoformat` raises an uncaught `ValueError` — for every
behaviour of the external free-text parser.  The claimed behaviour holds
on valid digit strings (`"31012024"` → 2024-01-31, `"1022024"` →
2024-02-01) and on the empty string. -/
theorem parse_date_raises_on_invalid_digits (ext : List Char → Option PyDate) :
    parse_date ext true "31132024".toList = Except.error "ValueError"
    ∧ parse_date ext true "31012024".toList = Except.ok (some ⟨2024, 1, 31⟩)
    ∧ parse_date ext true "1022024".toList = Except.ok (some ⟨2024, 2, 1⟩)
    ∧ parse_date ext true "".toList = Except.ok none := by
  refine ⟨?_, ?_, ?_, ?_⟩ <;> rfl

/-! ### PII Scanner — utils/pii.py -/

/-- Regex `\\s` on the characters in scope (ASCII whitespace and the
no-break space, which Python's Unicode `\\s` also matches). -/
def reSpace (c : Char) : Bool :=
  c = ' ' || c = '\t' || c = '\n' || c = '\r' ||
  c = Char.ofNat 11 || c = Char.ofNat 12 || c = Char.ofNat 160

/-- The character class `[\\d\\-\\s().]` of `_PHONE_BODY_RE`. -/
def phoneClass (c : Char) : Bool :=
  c.isDigit || c = '-' || reSpace c || c = '(' || c = ')' || c = '.'

/-- After the leading digit of `_PHONE_BODY_RE`, scan for some `k ≥ 8`
class characters followed by a digit (existential semantics of `{8,}`
under `re.search`). -/
def phoneScan : Nat → List Char → Bool
  | _, [] => false
  | k, c :: rest => (decide (8 ≤ k) && c.isDigit) || (phoneClass c && phoneScan (k + 1) rest)

/-- Embedding of `_PHONE_BODY_RE` anchored at the head of the list:
`\\+?\\d[\\d\\-\\s().]{8,}\\d`. -/
def phoneMatchAt : List Char → Bool
  | [] => false
  | '+' :: rest =>
    (match rest with
     | c :: rest2 => c.isDigit && phoneScan 0 rest2
     | [] => false)
  | c :: rest => c.isDigit && phoneScan 0 rest

/-- Embedding of `_PHONE_BODY_RE.search`: a match at some position. -/
def phoneSearch : List Char → Bool
  | [] => false
  | c :: rest => phoneMatchAt (c :: rest) || phoneSearch rest

/-- Embedding of `_is_iso_date_like`: `^\\d{4}-\\d{2}-\\d{2}$` (exactly ten characters)
or the prefix `^\\d{4}-\\d{2}-\\d{2}T`. -/
def isoDateLike : List Char → Bool
  | [a, b, c, d, e, f, g, h, i, j] =>
    a.isDigit && b.isDigit && c.isDigit && d.isDigit && e = '-' &&
    f.isDigit && g.isDigit && h = '-' && i.isDigit && j.isDigit
  | a :: b :: c :: d :: e :: f :: g :: h :: i :: j :: k :: _ =>
    a.isDigit && b.isDigit && c.isDigit && d.isDigit && e = '-' &&
    f.isDigit && g.isDigit && h = '-' && i.isDigit && j.isDigit && k = 'T'
  | _ => false

/-- Embedding of `contains_phone` from utils/pii.py: empty → false; strip; ISO-shaped
strings excluded; 10–15 digits required; then the phone-body regex. -/
def contains_phone (l : List Char) : Bool :=
  if l.isEmpty then false
  else if isoDateLike (pyStrip l) then false
  else if 10 ≤ ((pyStrip l).filter Char.isDigit).length ∧
      ((pyStrip l).filter Char.isDigit).length ≤ 15 then
    phoneSearch (pyStrip l)
  else false

/-- Embedding of `mask_phone`: keep only the digits; four or fewer digits are fully
starred; otherwise star all but the last two digits. -/
def mask_phone (l : List Char) : List Char :=
  if (l.filter Char.isDigit).length ≤ 4 then
    List.replicate (l.filter Char.isDigit).length '*'
  else
    List.replicate ((l.filter Char.isDigit).length - 2) '*' ++
      (l.filter Char.isDigit).drop ((l.filter Char.isDigit).length - 2)

/-- The phone component of `scan_series` over the non-`None` cells of a
column: the early exit of the loop does not change the resulting
disjunction. -/
def scan_series_phone (cells : List (List Char)) : Bool :=
  cells.any contains_phone

/-- Specification-side shape of an ISO-8601 date `YYYY-MM-DD`. -/
def IsIsoShapedDate (l : List Char) : Prop :=
  ∃ a b c d e f g h : Char,
    (a.isDigit = true ∧ b.isDigit = true ∧ c.isDigit = true ∧ d.isDigit = true ∧
     e.isDigit = true ∧ f.isDigit = true ∧ g.isDigit = true ∧ h.isDigit = true) ∧
    l = [a, b, c, d, '-', e, f, '-', g, h]

/-- Specification-side shape of an ISO-8601 date or timestamp: the bare
date, or the date followed by `T` and an arbitrary time part. -/
def IsIsoShaped (l : List Char) : Prop :=
  IsIsoShapedDate l ∨ ∃ pre rest, IsIsoShapedDate pre ∧ l = pre ++ 'T' :: rest

/-! #### ISO-shaped strings are never classified as phone numbers -/

lemma pyIsSpace_not_digit {c : Char} (h : pyIsSpace c = true) : c.isDigit = false := by
  simp only [pyIsSpace, Bool.or_eq_true, decide_eq_true_eq] at h
  rcases h with ((((((rfl | rfl) | rfl) | rfl) | rfl) | rfl) | rfl) <;> decide

lemma digit_not_pyIsSpace {c : Char} (h : c.isDigit = true) : pyIsSpace c = false := by
  by_contra hx
  have hs : pyIsSpace c = true := by
    revert hx
    cases pyIsSpace c <;> simp
  rw [pyIsSpace_not_digit hs] at h
  cases h

lemma dropWhile_all_false {p : Char → Bool} :
    ∀ l : List Char, (∀ c ∈ l, p c = false) → l.dropWhile p = l
  | [], _ => rfl
  | a :: t, h => by
    rw [List.dropWhile_cons, h a (List.mem_cons_self a t)]
    simp

lemma pyStrip_eq_self (l : List Char) (h : ∀ c ∈ l, pyIsSpace c = false) :
    pyStrip l = l := by
  unfold pyStrip
  rw [dropWhile_all_false l h]
  rw [dropWhile_all_false l.reverse (by intro c hc; exact h c (List.mem_reverse.mp hc))]
  exact List.reverse_reverse l

lemma dropWhile_append_split (p : Char → Bool) (l1 l2 : List Char) :
    (l1 ++ l2).dropWhile p =
      if (l1.dropWhile p).isEmpty then l2.dropWhile p else l1.dropWhile p ++ l2 := by
  induction l1 with
  | nil => simp
  | cons a t ih =>
    rw [List.cons_append, List.dropWhile_cons, List.dropWhile_cons]
    by_cases hp : p a = true
    · simp only [hp, if_true]
      exact ih
    · simp only [hp, if_false]
      simp [List.isEmpty]

lemma pyStrip_pre_T {pre : List Char} (rest : List Char) (hne : pre ≠ [])
    (hpre : ∀ c ∈ pre, pyIsSpace c = false) :
    ∃ rest2, pyStrip (pre ++ 'T' :: rest) = pre ++ 'T' :: rest2 := by
  have hT : pyIsSpace 'T' = false := by decide
  have hdpre : pre.dropWhile pyIsSpace = pre := dropWhile_all_false pre hpre
  have hpreEmpty : pre.isEmpty = false := by
    cases pre with
    | nil => exact absurd rfl hne
    | cons a t => rfl
  have hfront : (pre ++ 'T' :: rest).dropWhile pyIsSpace = pre ++ 'T' :: rest := by
    rw [dropWhile_append_split, hdpre, hpreEmpty]
    simp
  have hrev : (pre ++ 'T' :: rest).reverse = rest.reverse ++ 'T' :: pre.reverse := by
    rw [List.reverse_append, List.reverse_cons, List.append_assoc, List.singleton_append]
  have hTcons : ('T' :: pre.reverse).dropWhile pyIsSpace = 'T' :: pre.reverse := by
    rw [List.dropWhile_cons, hT]
    simp
  unfold pyStrip
  rw [hfront, hrev, dropWhile_append_split]
  by_cases hcase : ((rest.reverse).dropWhile pyIsSpace).isEmpty = true
  · rw [if_pos hcase, hTcons]
    refine ⟨[], ?_⟩
    rw [List.reverse_cons, List.reverse_reverse]
  · rw [if_neg hcase]
    refine ⟨((rest.reverse).dropWhile pyIsSpace).reverse, ?_⟩
    rw [List.reverse_append, List.reverse_cons, List.reverse_reverse, List.append_assoc,
      List.singleton_append]

lemma iso_core_nonspace {a b c d e f g h8 : Char}
    (ha : a.isDigit = true) (hb : b.isDigit = true) (hc : c.isDigit = true)
    (hd : d.isDigit = true) (he : e.isDigit = true) (hf : f.isDigit = true)
    (hg : g.isDigit = true) (hh : h8.isDigit = true) :
    ∀ x ∈ [a, b, c, d, '-', e, f, '-', g, h8], pyIsSpace x = false := by
  have hdash : pyIsSpace '-' = false := by decide
  intro x hx
  simp only [List.mem_cons, List.not_mem_nil, or_false] at hx
  rcases hx with rfl | rfl | rfl | rfl | rfl | rfl | rfl | rfl | rfl | rfl
  exacts [digit_not_pyIsSpace ha, digit_not_pyIsSpace hb, digit_not_pyIsSpace hc,
    digit_not_pyIsSpace hd, hdash, digit_not_pyIsSpace he, digit_not_pyIsSpace hf,
    hdash, digit_not_pyIsSpace hg, digit_not_pyIsSpace hh]

/-- An ISO-8601-shaped string (bare date or date`T`time) is never reported
as containing a phone number: the ISO guard of `contains_phone` fires
before any digit counting. -/
lemma iso_shaped_not_phone {l : List Char} (h : IsIsoShaped l) :
    contains_phone l = false := by
  rcases h with ⟨a, b, c, d, e, f, g, h8, ⟨ha, hb, hc, hd, he, hf, hg, hh⟩, rfl⟩ |
    ⟨pre, rest, ⟨a, b, c, d, e, f, g, h8, ⟨ha, hb, hc, hd, he, hf, hg, hh⟩, rfl⟩, rfl⟩
  · have hstrip := pyStrip_eq_self _ (iso_core_nonspace ha hb hc hd he hf hg hh)
    have hiso : isoDateLike [a, b, c, d, '-', e, f, '-', g, h8] = true := by
      simp [isoDateLike, ha, hb, hc, hd, he, hf, hg, hh]
    simp [contains_phone, hstrip, hiso]
  · have hne : [a, b, c, d, '-', e, f, '-', g, h8] ≠ ([] : List Char) := by simp
    obtain ⟨rest2, hstrip⟩ :=
      pyStrip_pre_T rest hne (iso_core_nonspace ha hb hc hd he hf hg hh)
    have hiso : isoDateLike ([a, b, c, d, '-', e, f, '-', g, h8] ++ 'T' :: rest2) = true := by
      simp [isoDateLike, ha, hb, hc, hd, he, hf, hg, hh]
    simp only [List.cons_append, List.nil_append] at hstrip hiso
    simp [contains_phone, hstrip, hiso]

/-- Stripping surrounding whitespace does not change the digits of a
string. -/
lemma filter_digit_pyStrip (l : List Char) :
    (pyStrip l).filter Char.isDigit = l.filter Char.isDigit := by
  have h1 : ∀ m : List Char,
      (m.dropWhile pyIsSpace).filter Char.isDigit = m.filter Char.isDigit := by
    intro m
    conv_rhs => rw [← List.takeWhile_append_dropWhile (p := pyIsSpace) (l := m)]
    rw [List.filter_append]
    have h0 : (m.takeWhile pyIsSpace).filter Char.isDigit = [] := by
      rw [List.filter_eq_nil_iff]
      intro a ha
      rw [pyIsSpace_not_digit (List.mem_takeWhile_imp ha)]
      simp
    rw [h0, List.nil_append]
  unfold pyStrip
  rw [List.filter_reverse, h1, List.filter_reverse, List.reverse_reverse, h1]

/-- C8: a string shaped like an ISO-8601 date or timestamp is never
detected as a phone number, so a column of ISO-8601 timestamp strings
never sets the phone flag; a column containing `"+40 371 234 567"` sets
the phone flag; and masking a detected phone number (which always carries
at least ten digits) keeps exactly its last two digits and stars all the
others. -/
theorem phone_iso_exclusion_and_masking :
    (∀ cells : List (List Char), (∀ v ∈ cells, IsIsoShaped v) →
      scan_series_phone cells = false)
    ∧ (∀ cells : List (List Char), "+40 371 234 567".toList ∈ cells →
      scan_series_phone cells = true)
    ∧ (∀ s : List Char, contains_phone s = true →
      10 ≤ (s.filter Char.isDigit).length ∧
      mask_phone s = List.replicate ((s.filter Char.isDigit).length - 2) '*' ++
        (s.filter Char.isDigit).drop ((s.filter Char.isDigit).length - 2))
    ∧ mask_phone "+40 371 234 567".toList = "*********67".toList := by
  refine ⟨?_, ?_, ?_, by decide⟩
  · intro cells h
    simp only [scan_series_phone, List.any_eq_false]
    intro v hv
    rw [iso_shaped_not_phone (h v hv)]
    simp
  · intro cells hmem
    exact List.any_eq_true.mpr ⟨_, hmem, by decide⟩
  · intro s hphone
    unfold contains_phone at hphone
    split_ifs at hphone with h1 h2 h3
    obtain ⟨h10, _⟩ := h3
    rw [filter_digit_pyStrip] at h10
    refine ⟨h10, ?_⟩
    unfold mask_phone
    rw [if_neg (by omega)]

/-- Witness for `phone_iso_exclusion_and_masking` at concrete inputs. -/
theorem phone_iso_exclusion_and_masking_witness :
    scan_series_phone ["2024-01-31T12:00:00".toList] = false
    ∧ scan_series_phone ["+40 371 234 567".toList] = true
    ∧ (10 ≤ (("+40 371 234 567".toList).filter Char.isDigit).length ∧
      mask_phone "+40 371 234 567".toList =
        List.replicate ((("+40 371 234 567".toList).filter Char.isDigit).length - 2) '*' ++
          (("+40 371 234 567".toList).filter Char.isDigit).drop
            ((("+40 371 234 567".toList).filter Char.isDigit).length - 2)) := by
  have h := phone_iso_exclusion_and_masking
  refine ⟨h.1 _ ?_, h.2.1 _ ?_, h.2.2.1 _ (by decide)⟩
  · intro v hv
    simp only [List.mem_singleton] at hv
    subst hv
    exact Or.inr ⟨"2024-01-31".toList, "12:00:00".toList,
      ⟨'2', '0', '2', '4', '0', '1', '3', '1', by decide, by decide⟩, by decide⟩
  · simp

/-! ### Normalizer confidence and status — ingest/normalize.py and app.py -/

/-- Embedding of `normalize_table` (normalize.py line 62): document confidence is
`sum(type_confidences) / max(len(type_confidences), 1)`. -/
def avg_confidence (confs : List ℚ) : ℚ :=
  confs.sum / (max confs.length 1 : ℕ)

/-- Embedding of `normalize_table` (normalize.py line 71): the status hint is the
literal `"ok"` when the mean clears 0.65 and the literal
`"parsed_with_low_confidence"` otherwise. -/
def status_hint (confs : List ℚ) : String :=
  if 65 / 100 ≤ avg_confidence confs then "ok" else "parsed_with_low_confidence"

/-- Embedding of `_run_parse_from_bytes` (app.py lines 690–692): the response
confidence blends the header confidence with the normalization
confidence, clamped into [0, 1]. -/
def overall_confidence (header_conf norm_conf : ℚ) : ℚ :=
  max 0 (min 1 ((header_conf + norm_conf) / 2))

/-- Embedding of `_run_parse_from_bytes` (app.py lines 693–696): downgrade an `"ok"`
hint when the blended confidence is below 0.6, then force
`"needs_rulefile"` when no rule matched and the current status is not
`"ok"`. -/
def final_status (ruleMatched : Bool) (hint : String) (oc : ℚ) : String :=
  if ruleMatched = false ∧
      (if hint = "ok" ∧ oc < 6 / 10 then "parsed_with_low_confidence" else hint) ≠ "ok" then
    "needs_rulefile"
  else if hint = "ok" ∧ oc < 6 / 10 then "parsed_with_low_confidence" else hint

/-- C4 as stated is false: the low-confidence status literal is
`"parsed_with_low_confidence"`, not `"low_confidence"`, and the
no-rule status literal is `"needs_rulefile"`, not `"needs_rule"` —
exhibited on a one-column table of confidence 0.5 with no matched rule. -/
theorem status_literals_counterexample :
    status_hint [(1 : ℚ) / 2] ≠ "low_confidence"
    ∧ final_status false (status_hint [(1 : ℚ) / 2]) ((1 : ℚ) / 2) ≠ "needs_rule"
    ∧ status_hint [(1 : ℚ) / 2] = "parsed_with_low_confidence"
    ∧ final_status false (status_hint [(1 : ℚ) / 2]) ((1 : ℚ) / 2) = "needs_rulefile" := by
  have h : status_hint [(1 : ℚ) / 2] = "parsed_with_low_confidence" := by
    unfold status_hint avg_confidence
    rw [if_neg]
    norm_num [List.sum_cons, List.sum_nil]
  have h2 : final_status false (status_hint [(1 : ℚ) / 2]) ((1 : ℚ) / 2)
      = "needs_rulefile" := by
    rw [h]
    unfold final_status
    rw [ite_self]
    rw [if_pos ⟨rfl, by decide⟩]
  refine ⟨?_, ?_, h, h2⟩
  · rw [h]
    decide
  · rw [h2]
    decide

/-- C4 (amended): the document confidence equals the arithmetic mean of
the per-column confidences; the status hint is `"ok"` exactly when this
mean is at least 0.65 and `"parsed_with_low_confidence"` otherwise; and
when no rule matched, the final status is `"needs_rulefile"` unless the
status, after the blended-confidence adjustment, is `"ok"`. -/
theorem normalization_confidence_and_status (confs : List ℚ) (h : confs ≠ []) :
    avg_confidence confs = confs.sum / confs.length
    ∧ (status_hint confs = "ok" ↔ 65 / 100 ≤ avg_confidence confs)
    ∧ (status_hint confs ≠ "ok" → status_hint confs = "parsed_with_low_confidence")
    ∧ (∀ (hint : String) (oc : ℚ),
        (final_status false hint oc = "ok" ↔ hint = "ok" ∧ ¬ oc < 6 / 10)
        ∧ (final_status false hint oc ≠ "ok" →
          final_status false hint oc = "needs_rulefile")) := by
  refine ⟨?_, ?_, ?_, ?_⟩
  · unfold avg_confidence
    rw [Nat.max_eq_left (List.length_pos.mpr h)]
  · unfold status_hint
    by_cases hc : 65 / 100 ≤ avg_confidence confs
    · rw [if_pos hc]
      simp [hc]
    · rw [if_neg hc]
      simp [hc]
  · unfold status_hint
    by_cases hc : 65 / 100 ≤ avg_confidence confs
    · rw [if_pos hc]
      intro hne
      exact absurd rfl hne
    · rw [if_neg hc]
      intro _
      rfl
  · intro hint oc
    unfold final_status
    by_cases h1 : hint = "ok"
    · subst h1
      by_cases h2 : oc < 6 / 10
      · have hinner : (if "ok" = "ok" ∧ oc < 6 / 10 then "parsed_with_low_confidence"
            else "ok") = "parsed_with_low_confidence" := if_pos ⟨rfl, h2⟩
        rw [hinner, if_pos ⟨rfl, by decide⟩]
        refine ⟨⟨fun hcontra => absurd hcontra (by decide),
          fun hcontra => absurd h2 hcontra.2⟩, fun _ => rfl⟩
      · have hinner : (if "ok" = "ok" ∧ oc < 6 / 10 then "parsed_with_low_confidence"
            else "ok") = "ok" := if_neg (fun hx => h2 hx.2)
        rw [hinner, if_neg (fun hx => hx.2 rfl)]
        refine ⟨⟨fun _ => ⟨rfl, h2⟩, fun _ => rfl⟩, fun hcontra => absurd rfl hcontra⟩
    · have hinner : (if hint = "ok" ∧ oc < 6 / 10 then "parsed_with_low_confidence"
          else hint) = hint := if_neg (fun hx => h1 hx.1)
      rw [hinner, if_pos ⟨rfl, h1⟩]
      refine ⟨⟨fun hcontra => absurd hcontra (by decide),
        fun hcontra => absurd hcontra.1 h1⟩, fun _ => rfl⟩

/-- Witness for `normalization_confidence_and_status` on a one-column
table of confidence 1. -/
theorem normalization_confidence_and_status_witness :
    avg_confidence [(1 : ℚ)] = [(1 : ℚ)].sum / ([(1 : ℚ)].length : ℕ)
    ∧ (status_hint [(1 : ℚ)] = "ok" ↔ 65 / 100 ≤ avg_confidence [(1 : ℚ)])
    ∧ (status_hint [(1 : ℚ)] ≠ "ok" → status_hint [(1 : ℚ)] = "parsed_with_low_confidence")
    ∧ (∀ (hint : String) (oc : ℚ),
        (final_status false hint oc = "ok" ↔ hint = "ok" ∧ ¬ oc < 6 / 10)
        ∧ (final_status false hint oc ≠ "ok" →
          final_status false hint oc = "needs_rulefile")) :=
  normalization_confidence_and_status [(1 : ℚ)] (by simp)

/-! ### The decimal-style option plumbing — app.py and numbers.py -/

/-- The keyword parameters accepted by `normalize.normalize_table`
(ingest/normalize.py lines 29–37): only `settings`, `rules` and
`llm_aliases` exist after the three positional parameters. -/
def normalize_table_keyword_params : List String :=
  ["settings", "rules", "llm_aliases"]

/-- The keyword arguments passed to `normalize.normalize_table` by
`_run_parse_from_bytes` (app.py lines 678–687). -/
def run_parse_normalize_call_keywords : List String :=
  ["settings", "rules", "llm_aliases", "dayfirst", "decimal_style"]

/-- The parameter list of `parse_number` (utils/numbers.py line 26): a
single value, no decimal-hint parameter. -/
def parse_number_params : List String := ["value"]

/-- C3 (code bug): the decimal hint is accepted and validated by the HTTP
surface but never reaches numeric coercion — `_run_parse_from_bytes`
passes the keywords `dayfirst` and `decimal_style` to `normalize_table`,
which accepts neither (a `TypeError` on every call), and `parse_number`
has no hint parameter at all.  The two concrete spec examples hold only
because plain inference already produces the claimed values. -/
theorem decimal_hint_not_plumbed :
    "decimal_style" ∈ run_parse_normalize_call_keywords
    ∧ "dayfirst" ∈ run_parse_normalize_call_keywords
    ∧ "decimal_style" ∉ normalize_table_keyword_params
    ∧ "dayfirst" ∉ normalize_table_keyword_params
    ∧ "decimal_style" ∉ parse_number_params
    ∧ parse_number "1.234,50".toList = some ((12345 : ℚ) / 10)
    ∧ parse_number "1.234".toList = some ((1234 : ℚ) / 1000) := by
  refine ⟨by decide, by decide, by decide, by decide, by decide, ?_, ?_⟩
  · have h : parse_numberRep "1.234,50".toList = some (123450, 2) := by decide
    simp only [parse_number, h, Option.map_some', repVal]
    norm_num
  · have h : parse_numberRep "1.234".toList = some (1234, 3) := by decide
    simp only [parse_number, h, Option.map_some', repVal]
    norm_num

/-! ### Rule Matcher — ingest/rules_loader.py -/

/-- The `match` block of a rule file: filename substrings, hint
substrings, expected column keywords (absent keys are empty lists). -/
structure MatchSpec where
  filenames : List String
  hints : List String
  columns : List String

/-- A rule file: its stem (name) and its match block.  The list order of a
rules directory models the glob iteration order; JSON-invalid files are
skipped by the loader before this point. -/
structure RuleFile where
  name : String
  rmatch : MatchSpec

/-- One token of `match["filenames"]`/`match["hints"]` scores when, after
lower-casing, it is non-empty and a substring of the (lower-cased)
haystack. -/
def tokenMatches (t : String) (hay : List Char) : Bool :=
  !(lowerL t.toList).isEmpty && substrL (lowerL t.toList) hay

/-- The filename loop of `_score_rule`: `score += 0.6` for every matching
token. -/
def fnTokenScore (tokens : List String) (hay : List Char) : ℚ :=
  tokens.foldl (fun acc t => if tokenMatches t hay = true then acc + 6 / 10 else acc) 0

/-- The hint part of `_score_rule`: skipped when no hint is given or the
hint is empty (Python truthiness), otherwise the same 0.6-per-token
loop. -/
def hintTokenScore (tokens : List String) : Option String → ℚ
  | none => 0
  | some hint => if hint = "" then 0 else fnTokenScore tokens (lowerL hint.toList)

/-- Embedding of `len(set(lowered_columns) & set(column_keywords))`. -/
def columnOverlap (ruleCols : List String) (columns : List String) : Nat :=
  ((columns.map (fun c => lowerL c.toList)).eraseDups.filter
    (fun c => c ∈ ruleCols.map (fun k => lowerL k.toList))).length

/-- Embedding of `_score_rule` from rules_loader.py. -/
def score_rule (m : MatchSpec) (filename : String) (columns : List String)
    (hint : Option String) : ℚ :=
  fnTokenScore m.filenames (lowerL filename.toList) + hintTokenScore m.hints hint +
    (if columnOverlap m.columns columns ≠ 0 then
      min (4 / 10) ((columnOverlap m.columns columns : ℚ) * (1 / 10))
    else 0)

/-- The candidate list built by `load_matching_rule`: rules with positive
score, plus the rule named `"default"` at score 0.1 when its own score is
not positive. -/
def candidatesOf (rules : List RuleFile) (filename : String) (columns : List String)
    (hint : Option String) : List (RuleFile × ℚ) :=
  rules.foldr (fun rl acc =>
    if 0 < score_rule rl.rmatch filename columns hint then
      (rl, score_rule rl.rmatch filename columns hint) :: acc
    else if rl.name = "default" then (rl, 1 / 10) :: acc
    else acc) []

/-- Python `max(candidates, key=...)`: the first element of maximal score
(later elements replace the current best only on a strictly greater
score). -/
def selectMax : List (RuleFile × ℚ) → Option (RuleFile × ℚ)
  | [] => none
  | c :: rest => some (rest.foldl (fun best x => if best.2 < x.2 then x else best) c)

/-- Embedding of `load_matching_rule`: the selected rule and its score, or none when no
candidate exists. -/
def load_matching_rule (rules : List RuleFile) (filename : String)
    (columns : List String) (hint : Option String) : Option (RuleFile × ℚ) :=
  selectMax (candidatesOf rules filename columns hint)

lemma fnTokenScore_aux (hay : List Char) (tokens : List String) (acc : ℚ) :
    tokens.foldl (fun a t => if tokenMatches t hay = true then a + 6 / 10 else a) acc
      = acc + (tokens.countP (fun t => tokenMatches t hay) : ℚ) * (6 / 10) := by
  induction tokens generalizing acc with
  | nil => simp
  | cons t ts ih =>
    rw [List.foldl_cons, List.countP_cons]
    by_cases h : tokenMatches t hay = true
    · rw [if_pos h, ih]
      simp only [h, if_true]
      push_cast
      ring
    · rw [if_neg h, ih]
      simp only [h, if_false]
      push_cast
      ring

/-- The per-token accumulation in closed form: 0.6 times the number of
matching tokens. -/
lemma fnTokenScore_eq_count (tokens : List String) (hay : List Char) :
    fnTokenScore tokens hay
      = (tokens.countP (fun t => tokenMatches t hay) : ℚ) * (6 / 10) := by
  unfold fnTokenScore
  rw [fnTokenScore_aux]
  ring

lemma selectMax_spec (c : RuleFile × ℚ) (rest : List (RuleFile × ℚ)) :
    (rest.foldl (fun best x => if best.2 < x.2 then x else best) c) ∈ c :: rest
    ∧ ∀ y ∈ c :: rest,
        y.2 ≤ (rest.foldl (fun best x => if best.2 < x.2 then x else best) c).2 := by
  induction rest generalizing c with
  | nil =>
    refine ⟨List.mem_singleton.mpr rfl, ?_⟩
    intro y hy
    rw [List.mem_singleton] at hy
    subst hy
    exact le_refl _
  | cons x rest ih =>
    rw [List.foldl_cons]
    have hstep : (if c.2 < x.2 then x else c) = x ∨ (if c.2 < x.2 then x else c) = c := by
      by_cases hx : c.2 < x.2
      · exact Or.inl (if_pos hx)
      · exact Or.inr (if_neg hx)
    have hc_le : c.2 ≤ (if c.2 < x.2 then x else c).2 := by
      by_cases hx : c.2 < x.2
      · rw [if_pos hx]
        exact le_of_lt hx
      · rw [if_neg hx]
    have hx_le : x.2 ≤ (if c.2 < x.2 then x else c).2 := by
      by_cases hx : c.2 < x.2
      · rw [if_pos hx]
      · rw [if_neg hx]
        exact le_of_not_lt hx
    obtain ⟨ihmem, ihle⟩ := ih (if c.2 < x.2 then x else c)
    constructor
    · rcases List.mem_cons.mp ihmem with heq | htail
      · rw [heq]
        rcases hstep with hs | hs
        · rw [hs]
          exact List.mem_cons_of_mem _ (List.mem_cons_self _ _)
        · rw [hs]
          exact List.mem_cons_self _ _
      · exact List.mem_cons_of_mem _ (List.mem_cons_of_mem _ htail)
    · intro y hy
      rcases List.mem_cons.mp hy with rfl | hy2
      · exact le_trans hc_le (ihle _ (List.mem_cons_self _ _))
      · rcases List.mem_cons.mp hy2 with rfl | hy3
        · exact le_trans hx_le (ihle _ (List.mem_cons_self _ _))
        · exact ihle _ (List.mem_cons_of_mem _ hy3)

lemma mem_candidatesOf_pos {rules : List RuleFile} {rl : RuleFile}
    (filename : String) (columns : List String) (hint : Option String)
    (hmem : rl ∈ rules) (hpos : 0 < score_rule rl.rmatch filename columns hint) :
    (rl, score_rule rl.rmatch filename columns hint)
      ∈ candidatesOf rules filename columns hint := by
  induction rules with
  | nil => cases hmem
  | cons r rs ih =>
    rcases List.mem_cons.mp hmem with rfl | htail
    · show (rl, _) ∈
        (if 0 < score_rule rl.rmatch filename columns hint then
          (rl, score_rule rl.rmatch filename columns hint) ::
            candidatesOf rs filename columns hint
        else if rl.name = "default" then
          (rl, 1 / 10) :: candidatesOf rs filename columns hint
        else candidatesOf rs filename columns hint)
      rw [if_pos hpos]
      exact List.mem_cons_self _ _
    · show (rl, _) ∈
        (if 0 < score_rule r.rmatch filename columns hint then
          (r, score_rule r.rmatch filename columns hint) ::
            candidatesOf rs filename columns hint
        else if r.name = "default" then
          (r, 1 / 10) :: candidatesOf rs filename columns hint
        else candidatesOf rs filename columns hint)
      split_ifs
      · exact List.mem_cons_of_mem _ (ih htail)
      · exact List.mem_cons_of_mem _ (ih htail)
      · exact ih htail

lemma mem_candidatesOf_default {rules : List RuleFile} {rl : RuleFile}
    (filename : String) (columns : List String) (hint : Option String)
    (hmem : rl ∈ rules) (hneg : ¬ 0 < score_rule rl.rmatch filename columns hint)
    (hdef : rl.name = "default") :
    (rl, (1 : ℚ) / 10) ∈ candidatesOf rules filename columns hint := by
  induction rules with
  | nil => cases hmem
  | cons r rs ih =>
    rcases List.mem_cons.mp hmem with rfl | htail
    · show (rl, (1 : ℚ) / 10) ∈
        (if 0 < score_rule rl.rmatch filename columns hint then
          (rl, score_rule rl.rmatch filename columns hint) ::
            candidatesOf rs filename columns hint
        else if rl.name = "default" then
          (rl, 1 / 10) :: candidatesOf rs filename columns hint
        else candidatesOf rs filename columns hint)
      rw [if_neg hneg, if_pos hdef]
      exact List.mem_cons_self _ _
    · show (rl, (1 : ℚ) / 10) ∈
        (if 0 < score_rule r.rmatch filename columns hint then
          (r, score_rule r.rmatch filename columns hint) ::
            candidatesOf rs filename columns hint
        else if r.name = "default" then
          (r, 1 / 10) :: candidatesOf rs filename columns hint
        else candidatesOf rs filename columns hint)
      split_ifs
      · exact List.mem_cons_of_mem _ (ih htail)
      · exact List.mem_cons_of_mem _ (ih htail)
      · exact ih htail

/-- Concrete rule with two filename tokens, both matching `"ab"`. -/
def cexRule : RuleFile := ⟨"r", ⟨["a", "b"], [], []⟩⟩

/-- Evaluation of the concrete counterexample score. -/
lemma cexRule_score_eval : score_rule cexRule.rmatch "ab" [] none = 12 / 10 := by
  unfold score_rule
  rw [fnTokenScore_eq_count]
  have hc : cexRule.rmatch.filenames.countP
      (fun t => tokenMatches t (lowerL "ab".toList)) = 2 := by decide
  rw [hc]
  norm_num [hintTokenScore, columnOverlap, cexRule]

/-- C7 as stated is false: on filename `"ab"`, a rule whose filename
tokens are `["a", "b"]` scores 0.6 + 0.6 = 1.2 — the loop adds 0.6 per
matching token instead of 0.6 when any token matches. -/
theorem rule_score_per_token_counterexample :
    score_rule cexRule.rmatch "ab" [] none = 12 / 10
    ∧ score_rule cexRule.rmatch "ab" [] none ≠ 6 / 10 := by
  refine ⟨cexRule_score_eval, ?_⟩
  rw [cexRule_score_eval]
  norm_num

/-- C7 (amended): the score is 0.6 *per* matching filename token, plus
0.6 per matching hint token when a non-empty hint is given, plus
min(0.4, 0.1·overlap) when the column overlap is positive; the selected
rule is a candidate of maximal score (the earliest on ties, in directory
order); every positively scoring rule is a candidate; a rule named
`"default"` whose own score is not positive is a candidate at score 0.1;
and no rule is selected exactly when there is no candidate. -/
theorem rule_matcher_scoring_and_selection :
    (∀ (m : MatchSpec) (filename : String) (columns : List String) (hint : Option String),
      score_rule m filename columns hint
        = (m.filenames.countP (fun t => tokenMatches t (lowerL filename.toList)) : ℚ)
            * (6 / 10)
          + hintTokenScore m.hints hint
          + (if columnOverlap m.columns columns ≠ 0 then
              min (4 / 10) ((columnOverlap m.columns columns : ℚ) * (1 / 10))
            else 0))
    ∧ (∀ (tokens : List String) (h : String), h ≠ "" →
        hintTokenScore tokens (some h)
          = (tokens.countP (fun t => tokenMatches t (lowerL h.toList)) : ℚ) * (6 / 10))
    ∧ (∀ (rules : List RuleFile) (filename : String) (columns : List String)
        (hint : Option String) (sel : RuleFile × ℚ),
        load_matching_rule rules filename columns hint = some sel →
          sel ∈ candidatesOf rules filename columns hint
          ∧ ∀ c ∈ candidatesOf rules filename columns hint, c.2 ≤ sel.2)
    ∧ (∀ (rules : List RuleFile) (filename : String) (columns : List String)
        (hint : Option String) (rl : RuleFile), rl ∈ rules →
        (0 < score_rule rl.rmatch filename columns hint →
          (rl, score_rule rl.rmatch filename columns hint)
            ∈ candidatesOf rules filename columns hint)
        ∧ (¬ 0 < score_rule rl.rmatch filename columns hint → rl.name = "default" →
          (rl, (1 : ℚ) / 10) ∈ candidatesOf rules filename columns hint))
    ∧ (∀ (rules : List RuleFile) (filename : String) (columns : List String)
        (hint : Option String),
        load_matching_rule rules filename columns hint = none
          ↔ candidatesOf rules filename columns hint = []) := by
  refine ⟨?_, ?_, ?_, ?_, ?_⟩
  · intro m filename columns hint
    unfold score_rule
    rw [fnTokenScore_eq_count]
  · intro tokens h hne
    show (if h = "" then 0 else fnTokenScore tokens (lowerL h.toList)) = _
    rw [if_neg hne, fnTokenScore_eq_count]
  · intro rules filename columns hint sel hsel
    unfold load_matching_rule at hsel
    rcases hcand : candidatesOf rules filename columns hint with _ | ⟨c, rest⟩
    · rw [hcand] at hsel
      exact absurd hsel (by simp [selectMax])
    · rw [hcand] at hsel
      simp only [selectMax, Option.some_inj] at hsel
      rw [← hsel]
      exact selectMax_spec c rest
  · intro rules filename columns hint rl hmem
    exact ⟨fun hpos => mem_candidatesOf_pos filename columns hint hmem hpos,
      fun hneg hdef => mem_candidatesOf_default filename columns hint hmem hneg hdef⟩
  · intro rules filename columns hint
    unfold load_matching_rule
    cases hcand : candidatesOf rules filename columns hint with
    | nil => simp [selectMax]
    | cons c rest => simp [selectMax]

/-- Witness for `rule_matcher_scoring_and_selection` at concrete inputs. -/
theorem rule_matcher_scoring_and_selection_witness :
    (score_rule cexRule.rmatch "ab" [] none
      = (cexRule.rmatch.filenames.countP
          (fun t => tokenMatches t (lowerL "ab".toList)) : ℚ) * (6 / 10)
        + hintTokenScore cexRule.rmatch.hints none
        + (if columnOverlap cexRule.rmatch.columns [] ≠ 0 then
            min (4 / 10) ((columnOverlap cexRule.rmatch.columns [] : ℚ) * (1 / 10))
          else 0))
    ∧ hintTokenScore ["a"] (some "a")
        = ((["a"] : List String).countP
            (fun t => tokenMatches t (lowerL "a".toList)) : ℚ) * (6 / 10)
    ∧ (cexRule, score_rule cexRule.rmatch "ab" [] none)
        ∈ candidatesOf [cexRule] "ab" [] none
    ∧ (load_matching_rule [] "f" [] none = none ↔ candidatesOf [] "f" [] none = []) := by
  have h := rule_matcher_scoring_and_selection
  refine ⟨h.1 _ _ _ _, h.2.1 _ _ (by decide), ?_, h.2.2.2.2 _ _ _ _⟩
  exact (h.2.2.2.1 [cexRule] "ab" [] none cexRule (by simp)).1
    (by rw [cexRule_score_eval]; norm_num)

/-! ### Receipt Store — webhook_store.py -/

/-- Python strings of the store/auth model. -/
abbrev Str := List Char

/-- The projection of an embedded parse response that the store consults
(`receipt.parse.confidence`, `receipt.status`). -/
structure ParseSummary where
  confidence : ℚ
  status : Str
deriving DecidableEq

/-- Embedding of `WebhookReceipt` from models.py. `received_at` is an epoch timestamp. -/
structure Receipt where
  intake_id : Str
  client_id : Option Str
  preset_id : Option Str
  idempotency_key : Str
  status : Str
  processing : Bool
  duplicate : Bool
  sync : Bool
  received_at : Nat
  filename : Option Str
  notes : List Str
  parse : Option ParseSummary
  artifacts : List (Str × Str)
  results_url : Option Str
deriving DecidableEq

/-- One line of a client's `index.ndjson`: exactly the keys written by
`save_receipt`.  `receipt_path` is modelled as the pair
(client root, intake id) that determines the path
`<client>/intakes/<intake_id>/receipt.json`. -/
structure IndexEntry where
  intake_id : Str
  client_id : Option Str
  preset_id : Option Str
  status : Str
  confidence : Option ℚ
  received_at : Nat
  filename : Option Str
  idempotency_key : Str
  receipt_path : Str × Str
  rule_applied : Option Str
  notes : List Str
deriving DecidableEq

/-- The observable state of a `WebhookStore` and its filesystem: the
per-client index files, the receipt files keyed by path, the in-memory
idempotency cache, the stored source artifacts (client, intake id,
filename), and a counter of normalization executions. -/
structure StoreState where
  index : List (Str × List IndexEntry)
  receipts : List ((Str × Str) × Receipt)
  cache : List ((Str × Str) × (Str × Str))
  sources : List (Str × Str × Str)
  runs : Nat
deriving DecidableEq

/-- Lookup in an association list (first binding wins). -/
def alookup {α β : Type} [DecidableEq α] (l : List (α × β)) (k : α) : Option β :=
  (l.find? (fun p => p.1 = k)).map Prod.snd

/-- Key update with Python-dict semantics (only `alookup` is observable):
bind `k` to `v`, shadowing any previous binding. -/
def aupsert {α β : Type} [DecidableEq α] (l : List (α × β)) (k : α) (v : β) :
    List (α × β) :=
  (k, v) :: l.filter (fun p => p.1 ≠ k)

/-- Embedding of `client_id or "default"` (Python truthiness: `None` and the empty
string both fall back). -/
def clientKey : Option Str → Str
  | some c => if c = [] then "default".toList else c
  | none => "default".toList

/-- Embedding of `_rule_from_notes`: the text after `rule_applied=` in the first note
carrying that prefix. -/
def rule_from_notes (notes : List Str) : Option Str :=
  (notes.find? (fun n => prefixL "rule_applied=".toList n)).map (fun n => n.drop 13)

/-- The index-entry dictionary written by `save_receipt` (both the
update branch and the append branch write exactly these fields). -/
def mkIndexEntry (r : Receipt) (key : Str) (path : Str × Str) : IndexEntry :=
  { intake_id := r.intake_id
    client_id := r.client_id
    preset_id := r.preset_id
    status := r.status
    confidence := r.parse.map (fun p => p.confidence)
    received_at := r.received_at
    filename := r.filename
    idempotency_key := key
    receipt_path := path
    rule_applied := rule_from_notes r.notes
    notes := r.notes.take 10 }

/-- The index rewrite of `save_receipt`: update the first entry carrying
the receipt's intake id in place, or append a new entry when none does. -/
def updateIndex (entries : List IndexEntry) (r : Receipt) (key : Str)
    (path : Str × Str) : List IndexEntry :=
  match entries with
  | [] => [mkIndexEntry r key path]
  | e :: rest =>
    if e.intake_id = r.intake_id then mkIndexEntry r key path :: rest
    else e :: updateIndex rest r key path

/-- The index file of one client (absent file reads as empty). -/
def entriesOf (s : StoreState) (ck : Str) : List IndexEntry :=
  (alookup s.index ck).getD []

/-- Embedding of `WebhookStore.save_receipt`: write the receipt file, cache the
idempotency key, and rewrite the client's index under the lock. -/
def save_receipt (s : StoreState) (r : Receipt) (client : Option Str)
    (key : Str) : StoreState :=
  { s with
    receipts := aupsert s.receipts (clientKey client, r.intake_id) r
    cache := aupsert s.cache (clientKey client, key) (clientKey client, r.intake_id)
    index := aupsert s.index (clientKey client)
      (updateIndex (entriesOf s (clientKey client)) r key
        (clientKey client, r.intake_id)) }

/-- The index-scanning loop of `find_by_idempotency`: the first entry
whose key matches and whose receipt file exists wins and is cached;
entries with dangling paths are skipped. -/
def findScan (s : StoreState) (ck : Str × Str) (key : Str) :
    List IndexEntry → Option Receipt × StoreState
  | [] => (none, s)
  | e :: rest =>
    if e.idempotency_key = key then
      match alookup s.receipts e.receipt_path with
      | some r => (some r, { s with cache := aupsert s.cache ck e.receipt_path })
      | none => findScan s ck key rest
    else findScan s ck key rest

/-- Embedding of `WebhookStore.find_by_idempotency`: consult the cache first — a hit
whose cached path still exists returns that receipt at once — otherwise
scan the client's index.  The two fall-through branches of the source
(cache miss, and cache hit with a dangling path) are folded into the
`none` case of the composed lookup, which they both equal. -/
def find_by_idempotency (s : StoreState) (client : Option Str) (key : Str) :
    Option Receipt × StoreState :=
  match (alookup s.cache (clientKey client, key)).bind
      (fun path => alookup s.receipts path) with
  | some r => (some r, s)
  | none => findScan s (clientKey client, key) key (entriesOf s (clientKey client))

/-! ### Intake Authenticator — app.py -/

/-- The authentication-relevant configuration (`AppSettings`):
`webhook_require_auth`, the values of `webhook_api_keys`,
`webhook_hmac_secrets`, `webhook_clock_skew_seconds`. -/
structure AuthConfig where
  require_auth : Bool
  api_keys : List Str
  hmac_secrets : List (Str × Str)
  clock_skew : Int

/-- The authentication-relevant request headers. -/
structure AuthRequest where
  authorization : Option Str
  signature : Option Str
  timestamp : Option Str

/-- Python `int()` on a header string: surrounding whitespace allowed,
optional sign, at least one digit. -/
def pyIntOfChars (l : Str) : Option Int :=
  match pyStrip l with
  | '+' :: rest => if rest ≠ [] ∧ rest.all Char.isDigit then some (natOfDigits rest) else none
  | '-' :: rest =>
    if rest ≠ [] ∧ rest.all Char.isDigit then some (-(natOfDigits rest : Int)) else none
  | rest => if rest ≠ [] ∧ rest.all Char.isDigit then some (natOfDigits rest) else none

/-- Embedding of `_extract_hmac_secret`: the per-client secret when the client id is
truthy and configured, otherwise the `"default"` secret. -/
def extract_hmac_secret (cfg : AuthConfig) (client : Option Str) : Option Str :=
  match client with
  | some c =>
    if c ≠ [] then
      match alookup cfg.hmac_secrets c with
      | some sec => some sec
      | none => alookup cfg.hmac_secrets "default".toList
    else alookup cfg.hmac_secrets "default".toList
  | none => alookup cfg.hmac_secrets "default".toList

/-- Embedding of `_check_api_key`: a case-insensitive `Bearer ` prefix, a non-empty
token, and membership in the configured API-key values. -/
def check_api_key (cfg : AuthConfig) (req : AuthRequest) : Bool :=
  match req.authorization with
  | none => false
  | some h =>
    if prefixL "bearer ".toList (lowerL h) then
      if h.drop 7 = [] then false else decide (h.drop 7 ∈ cfg.api_keys)
    else false

/-- Embedding of `_check_hmac_signature`.  The HMAC-SHA256 digest primitive is an
external collaborator, passed in as `hmacFn secret body`; the comparison
models `hmac.compare_digest` extensionally (constant-time execution is a
non-functional property).  Missing headers report `false`; every other
failure raises, i.e. returns an error. -/
def check_hmac (hmacFn : Str → Str → Str) (now : Int) (cfg : AuthConfig)
    (req : AuthRequest) (client : Option Str) (body : Str) : Except String Bool :=
  match req.signature, req.timestamp with
  | some sig, some ts =>
    if ¬ prefixL "sha256=".toList sig then Except.error "invalid_signature_format"
    else
      match pyIntOfChars ts with
      | none => Except.error "invalid_timestamp"
      | some t =>
        if cfg.clock_skew < ((now - t).natAbs : Int) then
          Except.error "timestamp_out_of_range"
        else
          match extract_hmac_secret cfg client with
          | none => Except.error "missing_hmac_secret"
          | some secret =>
            if hmacFn secret body ≠ sig.drop 7 then Except.error "signature_mismatch"
            else Except.ok true
  | _, _ => Except.ok false

/-- Embedding of `_authorize_webhook`: nothing to check when auth is disabled; the API
key is evaluated, the HMAC check runs with `HTTPException`s re-raised, and
either credential suffices — provided the HMAC check did not raise. -/
def authorize_webhook (hmacFn : Str → Str → Str) (now : Int) (cfg : AuthConfig)
    (req : AuthRequest) (client : Option Str) (body : Str) : Except String Unit :=
  if cfg.require_auth = false then Except.ok ()
  else
    match check_hmac hmacFn now cfg req client body with
    | Except.error e => Except.error e
    | Except.ok hm =>
      if check_api_key cfg req || hm then Except.ok ()
      else Except.error "authentication_required"

/-! ### Intake Orchestrator — app.py `webhook_intake` -/

/-- The processing path of a new (non-duplicate) intake, after
authorization and the idempotency check: persist the source artifact,
then either run normalization inline and save the terminal receipt
(synchronous), or save a `queued` receipt whose terminal rewrite happens
in a background task outside this call (asynchronous). -/
def process_new_intake (normalizer : Str → ParseSummary × List Str)
    (s : StoreState) (body : Str) (client : Option Str) (preset_id : Option Str)
    (key : Str) (filename : Str) (fresh_id : Str) (received_at : Nat)
    (sync : Bool) : Except String Receipt × StoreState :=
  let s2 := { s with sources := (clientKey client, fresh_id, filename) :: s.sources }
  if sync then
    let result := normalizer body
    let receipt : Receipt :=
      { intake_id := fresh_id, client_id := client, preset_id := preset_id
        idempotency_key := key, status := result.1.status, processing := false
        duplicate := false, sync := true, received_at := received_at
        filename := some filename, notes := result.2, parse := some result.1
        artifacts := [("source".toList, fresh_id)], results_url := none }
    (Except.ok receipt, save_receipt { s2 with runs := s2.runs + 1 } receipt client key)
  else
    let receipt : Receipt :=
      { intake_id := fresh_id, client_id := client, preset_id := preset_id
        idempotency_key := key, status := "queued".toList, processing := true
        duplicate := false, sync := false, received_at := received_at
        filename := some filename, notes := ["queued".toList], parse := none
        artifacts := [("source".toList, fresh_id)], results_url := none }
    (Except.ok receipt, save_receipt s2 receipt client key)

/-- Embedding of `webhook_intake` (app.py lines 187–380), with its request-parsing
collaborators abstracted: authorize; look up the idempotency key; on a
hit return the prior receipt with only the duplicate flag set and touch
nothing but the lookup cache; otherwise process the new intake under a
fresh id. -/
def webhook_intake (hmacFn : Str → Str → Str) (now : Int) (cfg : AuthConfig)
    (req : AuthRequest) (normalizer : Str → ParseSummary × List Str)
    (s : StoreState) (body : Str) (client : Option Str) (preset_id : Option Str)
    (key : Str) (filename : Str) (fresh_id : Str) (received_at : Nat)
    (sync : Bool) : Except String Receipt × StoreState :=
  match authorize_webhook hmacFn now cfg req client body with
  | Except.error e => (Except.error e, s)
  | Except.ok _ =>
    match find_by_idempotency s client key with
    | (some prior, s1) => (Except.ok { prior with duplicate := true }, s1)
    | (none, s1) =>
      process_new_intake normalizer s1 body client preset_id key filename fresh_id
        received_at sync

/-! #### Store lemmas -/

lemma alookup_aupsert {α β : Type} [DecidableEq α] (l : List (α × β)) (k : α) (v : β) :
    alookup (aupsert l k v) k = some v := by
  unfold alookup aupsert
  rw [List.find?_cons_of_pos _ (by simp)]
  rfl

lemma findScan_frame (s : StoreState) (ck : Str × Str) (key : Str) :
    ∀ entries : List IndexEntry,
      (findScan s ck key entries).2.receipts = s.receipts
      ∧ (findScan s ck key entries).2.index = s.index
      ∧ (findScan s ck key entries).2.sources = s.sources
      ∧ (findScan s ck key entries).2.runs = s.runs := by
  intro entries
  induction entries with
  | nil => exact ⟨rfl, rfl, rfl, rfl⟩
  | cons e rest ih =>
    by_cases he : e.idempotency_key = key
    · simp only [findScan]
      rw [if_pos he]
      cases hl : alookup s.receipts e.receipt_path with
      | some r => exact ⟨rfl, rfl, rfl, rfl⟩
      | none => exact ih
    · simp only [findScan]
      rw [if_neg he]
      exact ih

lemma find_frame (s : StoreState) (client : Option Str) (key : Str) :
    (find_by_idempotency s client key).2.receipts = s.receipts
    ∧ (find_by_idempotency s client key).2.index = s.index
    ∧ (find_by_idempotency s client key).2.sources = s.sources
    ∧ (find_by_idempotency s client key).2.runs = s.runs := by
  unfold find_by_idempotency
  cases h1 : (alookup s.cache (clientKey client, key)).bind
      (fun path => alookup s.receipts path) with
  | none => exact findScan_frame s _ key _
  | some r => exact ⟨rfl, rfl, rfl, rfl⟩

/-- C1: when the (client, idempotency key) pair already has a stored
receipt, the intake returns that receipt with only the duplicate flag
set, runs no normalization, and writes no receipt file, no index entry
and no source artifact (only the in-memory lookup cache may change). -/
theorem duplicate_intake_frame (hmacFn : Str → Str → Str) (now : Int)
    (cfg : AuthConfig) (req : AuthRequest)
    (normalizer : Str → ParseSummary × List Str) (s : StoreState) (body : Str)
    (client : Option Str) (preset_id : Option Str) (key : Str) (filename : Str)
    (fresh_id : Str) (received_at : Nat) (sync : Bool) (r : Receipt)
    (hauth : authorize_webhook hmacFn now cfg req client body = Except.ok ())
    (hdup : (find_by_idempotency s client key).1 = some r) :
    (webhook_intake hmacFn now cfg req normalizer s body client preset_id key
        filename fresh_id received_at sync).1
      = Except.ok { r with duplicate := true }
    ∧ (webhook_intake hmacFn now cfg req normalizer s body client preset_id key
        filename fresh_id received_at sync).2.receipts = s.receipts
    ∧ (webhook_intake hmacFn now cfg req normalizer s body client preset_id key
        filename fresh_id received_at sync).2.index = s.index
    ∧ (webhook_intake hmacFn now cfg req normalizer s body client preset_id key
        filename fresh_id received_at sync).2.sources = s.sources
    ∧ (webhook_intake hmacFn now cfg req normalizer s body client preset_id key
        filename fresh_id received_at sync).2.runs = s.runs := by
  have hpair : find_by_idempotency s client key
      = (some r, (find_by_idempotency s client key).2) := by
    rw [← hdup]
  obtain ⟨hrec, hidx, hsrc, hruns⟩ := find_frame s client key
  unfold webhook_intake
  rw [hauth, hpair]
  exact ⟨rfl, hrec, hidx, hsrc, hruns⟩

/-- No-auth configuration for concrete witnesses. -/
def cfgNoAuth : AuthConfig := ⟨false, [], [], 300⟩

/-- A request without credentials. -/
def reqEmpty : AuthRequest := ⟨none, none, none⟩

/-- A terminal receipt used in concrete witnesses. -/
def wReceipt : Receipt :=
  { intake_id := "i1".toList, client_id := none, preset_id := none
    idempotency_key := "k1".toList, status := "ok".toList, processing := false
    duplicate := false, sync := true, received_at := 0, filename := none
    notes := [], parse := none, artifacts := [], results_url := none }

/-- A store already holding `wReceipt` under idempotency key `k1`. -/
def wStore : StoreState :=
  { index := []
    receipts := [(("default".toList, "i1".toList), wReceipt)]
    cache := [(("default".toList, "k1".toList), ("default".toList, "i1".toList))]
    sources := []
    runs := 0 }

/-- A normalizer stub for witnesses (never reached on duplicate paths). -/
def wNormalizer : Str → ParseSummary × List Str := fun _ => (⟨0, "ok".toList⟩, [])

/-- Witness for `duplicate_intake_frame` on a concrete store. -/
theorem duplicate_intake_frame_witness :
    (webhook_intake (fun _ _ => []) 0 cfgNoAuth reqEmpty wNormalizer wStore []
        none none "k1".toList "f".toList "i2".toList 0 true).1
      = Except.ok { wReceipt with duplicate := true }
    ∧ (webhook_intake (fun _ _ => []) 0 cfgNoAuth reqEmpty wNormalizer wStore []
        none none "k1".toList "f".toList "i2".toList 0 true).2.receipts = wStore.receipts
    ∧ (webhook_intake (fun _ _ => []) 0 cfgNoAuth reqEmpty wNormalizer wStore []
        none none "k1".toList "f".toList "i2".toList 0 true).2.index = wStore.index
    ∧ (webhook_intake (fun _ _ => []) 0 cfgNoAuth reqEmpty wNormalizer wStore []
        none none "k1".toList "f".toList "i2".toList 0 true).2.sources = wStore.sources
    ∧ (webhook_intake (fun _ _ => []) 0 cfgNoAuth reqEmpty wNormalizer wStore []
        none none "k1".toList "f".toList "i2".toList 0 true).2.runs = wStore.runs :=
  duplicate_intake_frame (fun _ _ => []) 0 cfgNoAuth reqEmpty wNormalizer wStore []
    none none "k1".toList "f".toList "i2".toList 0 true wReceipt rfl rfl

/-! #### Authenticator properties -/

/-- Auth configuration requiring auth, with one API key and a default
HMAC secret. -/
def cexAuthCfg : AuthConfig :=
  ⟨true, ["k".toList], [("default".toList, "s".toList)], 300⟩

/-- A request carrying a valid bearer token together with a malformed
signature header and a timestamp header. -/
def cexAuthReq : AuthRequest :=
  ⟨some "Bearer k".toList, some "bogus".toList, some "0".toList⟩

/-- C5 as stated is false: a request whose bearer token is in the API-key
set is still rejected when its signature header is present but malformed —
the HMAC error is re-raised even though the API-key path succeeded. -/
theorem api_key_with_bad_signature_rejected :
    check_api_key cexAuthCfg cexAuthReq = true
    ∧ authorize_webhook (fun _ _ => []) 0 cexAuthCfg cexAuthReq (some "c".toList)
        "body".toList = Except.error "invalid_signature_format" :=
  ⟨by decide, rfl⟩

/-- C5 (amended): a valid HMAC signature with an in-window timestamp
authorizes regardless of the bearer token; a bearer token in the API-key
set authorizes provided the HMAC check does not raise (it returns `false`
rather than raising exactly when the signature or timestamp header is
absent); a request satisfying neither path is rejected; and a rejected
intake returns the authorization error with the store untouched. -/
theorem webhook_auth_two_paths (hmacFn : Str → Str → Str) (now : Int)
    (cfg : AuthConfig) (req : AuthRequest) (client : Option Str) (body : Str) :
    (check_hmac hmacFn now cfg req client body = Except.ok true →
      authorize_webhook hmacFn now cfg req client body = Except.ok ())
    ∧ (check_api_key cfg req = true →
      ∀ v, check_hmac hmacFn now cfg req client body = Except.ok v →
        authorize_webhook hmacFn now cfg req client body = Except.ok ())
    ∧ (cfg.require_auth = true → check_api_key cfg req = false →
      check_hmac hmacFn now cfg req client body = Except.ok false →
        authorize_webhook hmacFn now cfg req client body
          = Except.error "authentication_required")
    ∧ (∀ (normalizer : Str → ParseSummary × List Str) (s : StoreState)
        (preset_id : Option Str) (key filename fresh_id : Str)
        (received_at : Nat) (sync : Bool) (e : String),
      authorize_webhook hmacFn now cfg req client body = Except.error e →
        webhook_intake hmacFn now cfg req normalizer s body client preset_id key
          filename fresh_id received_at sync = (Except.error e, s)) := by
  refine ⟨?_, ?_, ?_, ?_⟩
  · intro hh
    unfold authorize_webhook
    by_cases hra : cfg.require_auth = false
    · rw [if_pos hra]
    · rw [if_neg hra, hh]
      simp
  · intro hapi v hh
    unfold authorize_webhook
    by_cases hra : cfg.require_auth = false
    · rw [if_pos hra]
    · rw [if_neg hra, hh, hapi]
      simp
  · intro hra hapi hh
    unfold authorize_webhook
    rw [if_neg (by rw [hra]; simp), hh, hapi]
    simp
  · intro normalizer s preset_id key filename fresh_id received_at sync e herr
    unfold webhook_intake
    rw [herr]

/-- Auth configuration with a default HMAC secret and no API keys. -/
def cfgHmacW : AuthConfig := ⟨true, [], [("default".toList, "s".toList)], 300⟩

/-- Auth configuration with one API key and no HMAC secrets. -/
def cfgApiW : AuthConfig := ⟨true, ["k".toList], [], 300⟩

/-- A correctly signed request (for the stub digest function). -/
def reqSigned : AuthRequest := ⟨none, some "sha256=x".toList, some "0".toList⟩

/-- A bearer-token-only request. -/
def reqBearer : AuthRequest := ⟨some "Bearer k".toList, none, none⟩

/-- Witness for `webhook_auth_two_paths` at concrete requests. -/
theorem webhook_auth_two_paths_witness :
    authorize_webhook (fun _ _ => "x".toList) 0 cfgHmacW reqSigned (some "c".toList)
        "b".toList = Except.ok ()
    ∧ authorize_webhook (fun _ _ => "x".toList) 0 cfgApiW reqBearer none
        "b".toList = Except.ok ()
    ∧ authorize_webhook (fun _ _ => "x".toList) 0 cfgApiW reqEmpty none
        "b".toList = Except.error "authentication_required"
    ∧ webhook_intake (fun _ _ => "x".toList) 0 cfgApiW reqEmpty wNormalizer wStore
        "b".toList none none "k1".toList "f".toList "i9".toList 0 true
      = (Except.error "authentication_required", wStore) := by
  refine ⟨?_, ?_, ?_, ?_⟩
  · exact (webhook_auth_two_paths (fun _ _ => "x".toList) 0 cfgHmacW reqSigned
      (some "c".toList) "b".toList).1 rfl
  · exact (webhook_auth_two_paths (fun _ _ => "x".toList) 0 cfgApiW reqBearer
      none "b".toList).2.1 (by decide) false rfl
  · exact (webhook_auth_two_paths (fun _ _ => "x".toList) 0 cfgApiW reqEmpty
      none "b".toList).2.2.1 rfl (by decide) rfl
  · exact (webhook_auth_two_paths (fun _ _ => "x".toList) 0 cfgApiW reqEmpty
      none "b".toList).2.2.2 wNormalizer wStore none "k1".toList "f".toList
      "i9".toList 0 true "authentication_required" rfl

/-! #### Index uniqueness and the idempotency round trip -/

/-- At most one entry per intake id. -/
def UniqueIds (entries : List IndexEntry) : Prop :=
  entries.Pairwise (fun a b => a.intake_id ≠ b.intake_id)

lemma mem_updateIndex {entries : List IndexEntry} {r : Receipt} {key : Str}
    {path : Str × Str} {b : IndexEntry} (hb : b ∈ updateIndex entries r key path) :
    b.intake_id = r.intake_id ∨ b ∈ entries := by
  induction entries with
  | nil =>
    rw [show updateIndex [] r key path = [mkIndexEntry r key path] from rfl,
      List.mem_singleton] at hb
    subst hb
    exact Or.inl rfl
  | cons e rest ih =>
    unfold updateIndex at hb
    by_cases he : e.intake_id = r.intake_id
    · rw [if_pos he] at hb
      rcases List.mem_cons.mp hb with rfl | h2
      · exact Or.inl rfl
      · exact Or.inr (List.mem_cons_of_mem _ h2)
    · rw [if_neg he] at hb
      rcases List.mem_cons.mp hb with rfl | h2
      · exact Or.inr (List.mem_cons_self _ _)
      · rcases ih h2 with h3 | h3
        · exact Or.inl h3
        · exact Or.inr (List.mem_cons_of_mem _ h3)

lemma updateIndex_unique {entries : List IndexEntry} {r : Receipt} {key : Str}
    {path : Str × Str} (h : UniqueIds entries) :
    UniqueIds (updateIndex entries r key path) := by
  induction entries with
  | nil => exact List.pairwise_singleton _ _
  | cons e rest ih =>
    rcases List.pairwise_cons.mp h with ⟨hhead, htail⟩
    unfold updateIndex
    by_cases he : e.intake_id = r.intake_id
    · rw [if_pos he]
      refine List.pairwise_cons.mpr ⟨?_, htail⟩
      intro b hb
      show (mkIndexEntry r key path).intake_id ≠ b.intake_id
      rw [show (mkIndexEntry r key path).intake_id = r.intake_id from rfl, ← he]
      exact hhead b hb
    · rw [if_neg he]
      refine List.pairwise_cons.mpr ⟨?_, ih htail⟩
      intro b hb
      rcases mem_updateIndex hb with h3 | h3
      · rw [h3]
        exact he
      · exact hhead b h3

lemma updateIndex_ids_of_mem {entries : List IndexEntry} {r : Receipt}
    (key : Str) (path : Str × Str)
    (h : r.intake_id ∈ entries.map (fun e => e.intake_id)) :
    (updateIndex entries r key path).map (fun e => e.intake_id)
      = entries.map (fun e => e.intake_id) := by
  induction entries with
  | nil => simp at h
  | cons e rest ih =>
    unfold updateIndex
    by_cases he : e.intake_id = r.intake_id
    · rw [if_pos he]
      simp only [List.map_cons]
      rw [show (mkIndexEntry r key path).intake_id = r.intake_id from rfl, he]
    · rw [if_neg he]
      simp only [List.map_cons] at h ⊢
      rcases List.mem_cons.mp h with h1 | h2
      · exact absurd h1.symm he
      · rw [ih h2]

lemma updateIndex_append_of_not_mem {entries : List IndexEntry} {r : Receipt}
    (key : Str) (path : Str × Str)
    (h : r.intake_id ∉ entries.map (fun e => e.intake_id)) :
    updateIndex entries r key path = entries ++ [mkIndexEntry r key path] := by
  induction entries with
  | nil => rfl
  | cons e rest ih =>
    unfold updateIndex
    have he : ¬ e.intake_id = r.intake_id := by
      intro hx
      exact h (by rw [List.map_cons, ← hx]; exact List.mem_cons_self _ _)
    rw [if_neg he,
      ih (fun hx => h (by rw [List.map_cons]; exact List.mem_cons_of_mem _ hx)),
      List.cons_append]

/-- C9: `save_receipt` keeps the per-client index at one entry per intake
id — the entry for the receipt's intake id is rewritten in place when
present (the id sequence is unchanged), and a single new entry is
appended only when no entry for that id exists. -/
theorem save_receipt_index_invariant (s : StoreState) (r : Receipt)
    (client : Option Str) (key : Str)
    (h : UniqueIds (entriesOf s (clientKey client))) :
    UniqueIds (entriesOf (save_receipt s r client key) (clientKey client))
    ∧ (r.intake_id ∈ (entriesOf s (clientKey client)).map (fun e => e.intake_id) →
      (entriesOf (save_receipt s r client key) (clientKey client)).map
          (fun e => e.intake_id)
        = (entriesOf s (clientKey client)).map (fun e => e.intake_id))
    ∧ (r.intake_id ∉ (entriesOf s (clientKey client)).map (fun e => e.intake_id) →
      entriesOf (save_receipt s r client key) (clientKey client)
        = entriesOf s (clientKey client)
          ++ [mkIndexEntry r key (clientKey client, r.intake_id)]) := by
  have hE : entriesOf (save_receipt s r client key) (clientKey client)
      = updateIndex (entriesOf s (clientKey client)) r key
          (clientKey client, r.intake_id) := by
    show (alookup (aupsert s.index (clientKey client)
        (updateIndex (entriesOf s (clientKey client)) r key
          (clientKey client, r.intake_id))) (clientKey client)).getD [] = _
    rw [alookup_aupsert]
    rfl
  rw [hE]
  exact ⟨updateIndex_unique h, fun hmem => updateIndex_ids_of_mem _ _ hmem,
    fun hnot => updateIndex_append_of_not_mem _ _ hnot⟩

/-- Witness for `save_receipt_index_invariant` on an empty index. -/
theorem save_receipt_index_invariant_witness :
    UniqueIds (entriesOf (save_receipt wStore wReceipt none "k2".toList)
      (clientKey none))
    ∧ (wReceipt.intake_id ∈ (entriesOf wStore (clientKey none)).map
        (fun e => e.intake_id) →
      (entriesOf (save_receipt wStore wReceipt none "k2".toList)
          (clientKey none)).map (fun e => e.intake_id)
        = (entriesOf wStore (clientKey none)).map (fun e => e.intake_id))
    ∧ (wReceipt.intake_id ∉ (entriesOf wStore (clientKey none)).map
        (fun e => e.intake_id) →
      entriesOf (save_receipt wStore wReceipt none "k2".toList) (clientKey none)
        = entriesOf wStore (clientKey none)
          ++ [mkIndexEntry wReceipt "k2".toList (clientKey none, wReceipt.intake_id)]) :=
  save_receipt_index_invariant wStore wReceipt none "k2".toList List.Pairwise.nil

/-- C10: immediately after `save_receipt`, the idempotency lookup under
the same (client, key) pair returns the saved receipt: the fresh cache
binding points at the just-written receipt file. -/
theorem save_then_find_roundtrip (s : StoreState) (r : Receipt)
    (client : Option Str) (key : Str) :
    (find_by_idempotency (save_receipt s r client key) client key).1 = some r := by
  have hc : alookup (save_receipt s r client key).cache (clientKey client, key)
      = some (clientKey client, r.intake_id) := by
    show alookup (aupsert s.cache (clientKey client, key)
      (clientKey client, r.intake_id)) (clientKey client, key) = _
    exact alookup_aupsert _ _ _
  have hr : alookup (save_receipt s r client key).receipts
      (clientKey client, r.intake_id) = some r := by
    show alookup (aupsert s.receipts (clientKey client, r.intake_id) r)
      (clientKey client, r.intake_id) = _
    exact alookup_aupsert _ _ _
  have hbind : (alookup (save_receipt s r client key).cache (clientKey client, key)).bind
      (fun path => alookup (save_receipt s r client key).receipts path) = some r := by
    rw [hc, Option.some_bind, hr]
  unfold find_by_idempotency
  rw [hbind]


end UTE

